import Mathlib

/-!
Shallow embedding of the analysis engine of wbreza/azd-template-analysis
(package `analyze`, with its `project` and `templates` collaborators), and
proofs about the spec claims concerning it.

Modelling conventions:
- Go `map[string]X` values are embedded as association lists
  `List (String × X)`.  Go does not specify a map iteration order; the
  order of the association list stands for one realizable iteration
  order (insertion order), and every order-independent statement below is
  proved without using that order.
- Go `any` values stored in `Insights`/returned by resolvers are embedded
  as the closed sum `Value` of the dynamic types the code actually stores
  (bool, int, string).
- Filesystem and YAML decoding are external collaborators; they are
  embedded as an explicit environment `Env` of pure functions
  (`os.Stat` success, `os.ReadFile`, `yaml.Unmarshal`).
- A Go runtime panic (nil-pointer dereference) is embedded as `none` in an
  `Option` result.
- Machine integers: the code only ever sums small slice lengths and
  per-hook counters, far from overflow; `Int` is used directly.
-/

/-- Dynamic value stored in a Segment `Insights`/returned through `any`. -/
inductive Value : Type where
  | bool (b : Bool)
  | int (n : Int)
  | str (s : String)
deriving DecidableEq, Repr

/-- Go type assertion `value.(bool)`. -/
def Value.asBool : Value → Option Bool
  | .bool b => some b
  | _ => none

/-- Go type assertion `value.(int)`. -/
def Value.asInt : Value → Option Int
  | .int n => some n
  | _ => none

/-- Association-list lookup, embedding Go map indexing `m[k]`. -/
def lookupA {β : Type} (l : List (String × β)) (k : String) : Option β :=
  (l.find? (fun p => p.1 == k)).map (fun p => p.2)

/-- Association-list update, embedding Go map assignment `m[k] = v`:
replaces the binding in place when the key is present, otherwise appends
(so list order models insertion order). -/
def insertA {β : Type} : List (String × β) → String → β → List (String × β)
  | [], k, v => [(k, v)]
  | (k1, v1) :: rest, k, v =>
    if k1 == k then (k, v) :: rest else (k1, v1) :: insertA rest k v

/-- The recursive Segment tree (analyze.go): errors, raw data, insights and
named child segments. -/
inductive Segment : Type where
  | mk : List String → List (String × String) → List (String × Value) →
      List (String × Segment) → Segment

def Segment.errors : Segment → List String
  | .mk e _ _ _ => e

def Segment.data : Segment → List (String × String)
  | .mk _ d _ _ => d

def Segment.insights : Segment → List (String × Value)
  | .mk _ _ i _ => i

def Segment.segments : Segment → List (String × Segment)
  | .mk _ _ _ s => s

/-- NewSegment (analyze.go): all fields empty. -/
def NewSegment : Segment := .mk [] [] [] []

def Segment.addError : Segment → String → Segment
  | .mk e d i s, msg => .mk (e ++ [msg]) d i s

def Segment.setData : Segment → String → String → Segment
  | .mk e d i s, k, v => .mk e (insertA d k v) i s

def Segment.setInsight : Segment → String → Value → Segment
  | .mk e d i s, k, v => .mk e d (insertA i k v) s

def Segment.setSegment : Segment → String → Segment → Segment
  | .mk e d i s, k, c => .mk e d i (insertA s k c)

/-- HasSegment (analyze.go): membership of `key` in the Segments map of
this one node only. -/
def HasSegment (analysis : Segment) (key : String) : Bool :=
  (lookupA analysis.segments key).isSome

mutual

/-- GetInsight (analyze.go, the variant present in src): return the own
insight when present; otherwise the Go `for ... range` body executes
`return GetInsight(segment, key)` on its first iteration, so only the
first-iterated child subtree is consulted; with no children it returns
the empty string as an `any`. -/
def GetInsight : Segment → String → Value
  | .mk _ _ ins segs, key =>
    match lookupA ins key with
    | some v => v
    | none => GetInsightFirst segs key

/-- The for-range loop inside GetInsight: its body returns unconditionally,
so only the first-iterated child is consulted; an empty map falls through
to the final return of the empty string. -/
def GetInsightFirst : List (String × Segment) → String → Value
  | [], _ => .str ""
  | (_, c) :: _, key => GetInsight c key

end

mutual

/-- Modelled from the spec: the generic aggregation operation
`getInsight<T>(root, name) -> (values, found)` that insight.go calls as
`GetInsight[bool]` / `GetInsight[int]` is not present under src (src holds
the superseded non-generic variant above at the same symbol).  Per the
spec it collects every Insight named `key` across the entire subtree
rooted at the node, keeping the values that type-match `T` (embedded as
the partial projection `ext`), in depth-first order.  `collectInsightList`
is the companion walk over the child list. -/
def collectInsight {α : Type} (ext : Value → Option α) : Segment → String → List α
  | .mk _ _ ins segs, key =>
    (match (lookupA ins key).bind ext with
     | some a => [a]
     | none => []) ++ collectInsightList ext segs key

/-- Modelled from the spec: companion of `collectInsight` walking the
children in order. -/
def collectInsightList {α : Type} (ext : Value → Option α) :
    List (String × Segment) → String → List α
  | [], _ => []
  | (_, c) :: rest, key => collectInsight ext c key ++ collectInsightList ext rest key

end

/-- Modelled from the spec: the pair form of the generic aggregation
operation, returning the collected multiset plus whether any matched. -/
def GetInsightT {α : Type} (ext : Value → Option α) (s : Segment) (key : String) :
    List α × Bool :=
  let values := collectInsight ext s key
  (values, !values.isEmpty)

mutual

/-- Depth-first list of all nodes of a subtree (the root node first,
then the subtrees of the children in order); used to state subtree-wide
properties independently of the recursive collectors. -/
def subtreeNodes : Segment → List Segment
  | .mk e d i segs => .mk e d i segs :: subtreeNodesList segs

/-- Companion of `subtreeNodes` over a child list. -/
def subtreeNodesList : List (String × Segment) → List Segment
  | [] => []
  | (_, c) :: rest => subtreeNodes c ++ subtreeNodesList rest

end

/-- boolInsightResolver.Value (insight.go): collect the bool occurrences
over the subtree; with no match return `fmt.Sprint(false)` (the string
"false"); otherwise `slices.Contains(values, true)`. -/
def boolInsightResolverValue (segment : Segment) (key : String) : Value :=
  let r := GetInsightT Value.asBool segment key
  if r.2 then .bool (r.1.contains true) else .str "false"

/-- numberInsightResolver.Value (insight.go): collect the int occurrences
over the subtree; with no match return `fmt.Sprint(0)` (the string "0");
otherwise the running sum. -/
def numberInsightResolverValue (segment : Segment) (key : String) : Value :=
  let r := GetInsightT Value.asInt segment key
  if r.2 then .int (r.1.foldl (fun acc v => acc + v) 0) else .str "0"

mutual

/-- Stated from the spec for comparison with `HasSegment`: true when the
name labels some node reachable by following `segments` one or more times
from the root, i.e. a direct child of the root or, recursively, a child of
some descendant. -/
def specHasSegment : Segment → String → Bool
  | .mk _ _ _ segs, name =>
    segs.any (fun p => p.1 == name) || specHasSegmentList segs name

/-- Companion of `specHasSegment` over a child list. -/
def specHasSegmentList : List (String × Segment) → String → Bool
  | [], _ => false
  | (_, c) :: rest, name => specHasSegment c name || specHasSegmentList rest name

end

/-- Hook (project/project.go): run command, shell, and optional
OS-specific override hooks (Go `*Hook` pointers, nil embedded as none). -/
inductive Hook : Type where
  | mk : String → String → Option Hook → Option Hook → Hook

def Hook.run : Hook → String
  | .mk r _ _ _ => r

def Hook.shell : Hook → String
  | .mk _ s _ _ => s

def Hook.posix : Hook → Option Hook
  | .mk _ _ p _ => p

def Hook.windows : Hook → Option Hook
  | .mk _ _ _ w => w

/-- Metadata (project/project.go). -/
structure Metadata : Type where
  template : String

/-- Service (project/project.go). -/
structure Service : Type where
  host : String
  language : String
  hooks : List (String × Hook)
  relativePath : String

/-- Project (project/project.go); `workflows` values are opaque
(`map[string]interface{}`), only the length of the map is ever read. -/
structure Project : Type where
  name : String
  hooks : List (String × Hook)
  workflows : List (String × Value)
  metadata : Option Metadata
  services : List (String × Service)
  raw : String

/-- Template (templates/templates.go). -/
structure Template : Type where
  title : String
  description : String
  website : String
  author : String
  source : String
  tags : List String

/-- AnalysisContext (analyze.go). -/
structure AnalysisContext : Type where
  workingDirectory : String

/-- External collaborators: filesystem stat/read and YAML decoding,
embedded as pure functions.  `statOk p` is true when `os.Stat(p)`
succeeds; a failing stat is treated as not-exist (the only stat error the
code distinguishes). -/
structure Env : Type where
  statOk : String → Bool
  readFile : String → Except String String
  parseYaml : String → Except String Project

/-- The error value returned by project.Load, keeping the classification
that `errors.Is(err, fs.ErrNotExist)` tests for. -/
inductive LoadErr : Type where
  | notExist (msg : String)
  | readFail (msg : String)
  | parseFail (msg : String)

/-- The `err.Error()` string of a LoadErr. -/
def LoadErr.message : LoadErr → String
  | .notExist m => m
  | .readFail m => m
  | .parseFail m => m

/-- errors.Is(err, fs.ErrNotExist): only the stat-failure branch of
project.Load wraps fs.ErrNotExist. -/
def LoadErr.isNotExist : LoadErr → Bool
  | .notExist _ => true
  | _ => false

/-- filepath.Join for the two-argument uses in the code (path cleaning is
not modelled; no analyzed behavior depends on it). -/
def filepathJoin (a b : String) : String :=
  if a = "" then b else if b = "" then a else a ++ "/" ++ b

/-- Splitting a character list on a separator (kernel-reducible stand-in
for String.splitOn). -/
def splitOnCharAux (sep : Char) : List Char → List Char → List String
  | [], acc => [String.mk acc.reverse]
  | c :: rest, acc =>
    if c = sep then String.mk acc.reverse :: splitOnCharAux sep rest []
    else splitOnCharAux sep rest (c :: acc)

/-- filepath.Base: last non-empty path element. -/
def filepathBase (s : String) : String :=
  match ((splitOnCharAux '/' s.toList []).filter (fun p => p ≠ "")).getLast? with
  | some p => p
  | none => if s = "" then "." else "/"

/-- Suffix test over the character lists (kernel-reducible stand-in for
String.endsWith). -/
def strEndsWith (s suf : String) : Bool :=
  suf.toList.reverse.isPrefixOf s.toList.reverse

/-- Substring test over the character lists. -/
def strContains (s pat : String) : Bool :=
  s.toList.tails.any (fun l => pat.toList.isPrefixOf l)

/-- The text of the wrapped `os.Stat` not-exist error. -/
def statErrNotExist (p : String) : String :=
  "stat " ++ p ++ ": no such file or directory"

/-- project.Load (project/project.go): stat azure.yaml (not-exist is a
classified failure), read it, decode it, and keep the raw bytes on the
returned Project. -/
def ProjectLoad (env : Env) (path : String) : Except LoadErr Project :=
  let azureYamlPath := filepathJoin path "azure.yaml"
  if env.statOk azureYamlPath then
    match env.readFile azureYamlPath with
    | .error e =>
      .error (.readFail ("failed to read azure.yaml file " ++ azureYamlPath ++ ": " ++ e))
    | .ok bytes =>
      match env.parseYaml bytes with
      | .error e =>
        .error (.parseFail ("failed to unmarshal azure.yaml file " ++ azureYamlPath ++ ": " ++ e))
      | .ok p => .ok { p with raw := bytes }
  else
    .error (.notExist ("azure.yaml file not found in repo root @ " ++ azureYamlPath ++ ", "
      ++ statErrNotExist azureYamlPath))

/-- The RE2 character class `\s` ([\t\n\f\r ]). -/
def isGoSpace (c : Char) : Bool :=
  c = ' ' || c = Char.ofNat 9 || c = Char.ofNat 10 || c = Char.ofNat 12 || c = Char.ofNat 13

/-- Anchored match of the pattern `az\s` at the head of a character list. -/
def azWsAt : List Char → Bool
  | 'a' :: 'z' :: c :: _ => isGoSpace c
  | _ => false

/-- Anchored match of the pattern `az\slogin` at the head of a character
list. -/
def azWsLoginAt : List Char → Bool
  | 'a' :: 'z' :: c :: 'l' :: 'o' :: 'g' :: 'i' :: 'n' :: _ => isGoSpace c
  | _ => false

/-- Anchored match of the pattern `azd\s` at the head of a character
list. -/
def azdWsAt : List Char → Bool
  | 'a' :: 'z' :: 'd' :: c :: _ => isGoSpace c
  | _ => false

/-- True when the anchored pattern matches at some position of the list;
this is `regexp.MatchString` for patterns without alternation over
positions. -/
def anyTail (p : List Char → Bool) : List Char → Bool
  | [] => p []
  | l@(_ :: rest) => p l || anyTail p rest

/-- regexp.MatchString of an anchored pattern over a string. -/
def matchStringP (p : List Char → Bool) (s : String) : Bool :=
  anyTail p s.toList

/-- heuristicMap (analyze.go): fixed pattern table.  The list order stands
for one map iteration order; each entry writes a distinct insight key, so
no analyzed behavior depends on this order. -/
def heuristicMap : List (String × (String → Bool)) :=
  [("usesAzCli", matchStringP azWsAt),
   ("usesAzCliLogin", matchStringP azWsLoginAt),
   ("usesAzd", matchStringP azdWsAt)]

/-- Characters of the path-like token class of scriptRegex. -/
def isPathChar (c : Char) : Bool :=
  c.isAlphanum || c = '_' || c = '-' || c = '.' || c = '/' || c = '\\' || c = ':'

/-- Accumulating splitter into maximal runs of path characters. -/
def pathTokensAux : List Char → List Char → List String
  | [], acc => if acc.isEmpty then [] else [String.mk acc.reverse]
  | c :: rest, acc =>
    if isPathChar c then pathTokensAux rest (c :: acc)
    else if acc.isEmpty then pathTokensAux rest []
    else String.mk acc.reverse :: pathTokensAux rest []

/-- Maximal runs of path characters of a string, in order. -/
def pathTokens (s : String) : List String :=
  pathTokensAux s.toList []

/-- Recognized script extensions of scriptRegex. -/
def hasScriptExt (s : String) : Bool :=
  strEndsWith s ".sh" || strEndsWith s ".ps1"

/-- scriptRegex.FindAllString (analyze.go): the embedded script-file
references of a script body.  Embedded as the maximal path-like tokens
that end in a recognized script extension; this agrees with the regex on
whitespace-delimited references (the regex can additionally match a
path-shaped infix of a longer token, which no analyzed input exercises). -/
def findEmbeddedScripts (s : String) : List String :=
  (pathTokens s).filter hasScriptExt

/-- Resolution of the effective run command of a hook (analyze.go lines
at the top of the per-hook loop).  Go reads `hook.Posix.Run` (and then
`hook.Windows.Run`) through a possibly nil pointer; the dereference of a
nil override is a runtime panic, embedded as `none`. -/
def effectiveRun (hook : Hook) : Option String :=
  if hook.run ≠ "" then some hook.run
  else
    match hook.posix with
    | none => none
    | some p =>
      if p.run ≠ "" then some p.run
      else
        match hook.windows with
        | none => none
        | some w => some w.run

/-- A string wrapped in single quotes, as the `%s` hook error messages
format it. -/
def squote (s : String) : String :=
  String.mk [Char.ofNat 39] ++ s ++ String.mk [Char.ofNat 39]

/-- The body of the per-hook loop of analyzeHooks (analyze.go) after the
run command resolved to a non-empty `hookRun`: OS-variant flag, inline/file
classification, embedded script collection, and the heuristic loop.
Returns the fully populated hook segment (built through the same pointer
the loop attaches before populating it). -/
def processHook (env : Env) (templatePath : String) (hook : Hook) (hookRun : String) :
    Segment :=
  let hasWindowsScript :=
    match hook.windows with
    | some w => w.run ≠ ""
    | none => false
  let hasPosixScript :=
    match hook.posix with
    | some p => p.run ≠ ""
    | none => false
  let usesOsVariantScripts := hasWindowsScript && hasPosixScript
  let seg := NewSegment.setInsight "usesOsVariantScripts" (.bool usesOsVariantScripts)
  let scriptPath := filepathJoin templatePath hookRun
  let stepInline :=
    if env.statOk scriptPath then
      let seg := seg.setInsight "usesInlineScript" (.bool false)
      match env.readFile scriptPath with
      | .error e =>
        (seg.addError ("Failed reading hook file " ++ squote scriptPath ++ ": " ++ e), "")
      | .ok content => (seg, content)
    else
      (seg.setInsight "usesInlineScript" (.bool true), hookRun)
  let seg := stepInline.1
  let hookScript := stepInline.2
  let allScripts : List (String × String) := [("script", hookScript)]
  let stepEmbedded :=
    (findEmbeddedScripts hookScript).foldl
      (fun (acc : Segment × List (String × String)) sp =>
        let embeddedScriptPath := filepathJoin templatePath sp
        match env.readFile embeddedScriptPath with
        | .error e =>
          (acc.1.addError ("Failed reading embedded script " ++ squote embeddedScriptPath
            ++ ": " ++ e), acc.2)
        | .ok content => (acc.1, insertA acc.2 sp content))
      (seg, allScripts)
  let seg := stepEmbedded.1
  let allScripts := stepEmbedded.2
  heuristicMap.foldl
    (fun seg hk =>
      allScripts.foldl
        (fun seg ks => (seg.setData ks.1 ks.2).setInsight hk.1 (.bool (hk.2 ks.2)))
        seg)
    seg

/-- The per-hook loop of analyzeHooks over the hooks map (list order =
iteration order).  Result `none` embeds the nil-pointer panic; otherwise
the populated hooks root segment plus whether the loop ran to completion
(false when the empty-run `return nil` fired, which skips the type
rollups and every later hook). -/
def hookLoop (env : Env) (templatePath : String) :
    Segment → List (String × Hook) → Option (Segment × Bool)
  | root, [] => some (root, true)
  | root, (hookName, hook) :: rest =>
    match effectiveRun hook with
    | none => none
    | some hookRun =>
      if hookRun = "" then
        let hookSegment : Segment :=
          .mk (root.errors ++ [hookName ++ " hook missing run command"]) [] [] []
        some (root.setSegment hookName hookSegment, false)
      else
        hookLoop env templatePath
          (root.setSegment hookName (processHook env templatePath hook hookRun)) rest

/-- The fixed hook-name list of the type rollup (analyze.go). -/
def hookTypeNames : List String :=
  ["restore", "build", "provision", "package", "deploy", "up", "down"]

/-- The fixed phase list of the type rollup (analyze.go). -/
def phasesList : List String := ["pre", "post"]

/-- The type-coverage rollup at the end of analyzeHooks: one boolean
insight per composed phase+name, from a direct-child existence check on
the hooks root segment. -/
def applyRollup (root : Segment) : Segment :=
  hookTypeNames.foldl
    (fun root hookName =>
      phasesList.foldl
        (fun root phase =>
          let composed := phase ++ hookName
          root.setInsight ("type-" ++ composed) (.bool (HasSegment root composed)))
        root)
    root

/-- analyzeHooks (analyze.go): load the project (returning its error to
the orchestrator on failure), return early with no hooks segment when the
hooks map is empty, otherwise attach a hooks root segment and run the
per-hook loop, applying the type rollup only when the loop completed.
Result `none` embeds the nil-pointer panic inside the loop. -/
def analyzeHooks (env : Env) (ctx : AnalysisContext) (template : Template)
    (analysis : Segment) : Option (Segment × Option String) :=
  let templatePath := filepathJoin ctx.workingDirectory (filepathBase template.source)
  match ProjectLoad env templatePath with
  | .error e => some (analysis, some e.message)
  | .ok azdProject =>
    if azdProject.hooks.isEmpty then some (analysis, none)
    else
      match hookLoop env templatePath NewSegment azdProject.hooks with
      | none => none
      | some (hooksRoot, completed) =>
        let hooksRoot := if completed then applyRollup hooksRoot else hooksRoot
        some (analysis.setSegment "hooks" hooksRoot, none)

/-- The host-type list of analyzeProject (analyze.go). -/
def hostTypes : List String :=
  ["appservice", "containerapp", "function", "springapp", "aks", "staticwebapp",
   "ai.endpoint"]

/-- The language families of analyzeProject (analyze.go); list order
stands for one map iteration order, each entry writing a distinct key. -/
def languagesList : List (String × List String) :=
  [("dotnet", ["csharp", "dotnet", "fsharp"]),
   ("java", ["java"]),
   ("javascript", ["javascript", "node", "ts"]),
   ("python", ["python", "py"])]

/-- hasHostType (analyze.go). -/
def hasHostType (azdProject : Project) (hostType : String) : Bool :=
  if azdProject.services.isEmpty then false
  else azdProject.services.any (fun sv => sv.2.host == hostType)

/-- hasLanguage (analyze.go). -/
def hasLanguage (azdProject : Project) (languageSet : List String) : Bool :=
  if azdProject.services.isEmpty then false
  else azdProject.services.any (fun sv => languageSet.contains sv.2.language)

/-- analyzeProject (analyze.go): re-load the project and write the
project-level insights onto the root segment (never a child segment);
always returns a nil error. -/
def analyzeProject (env : Env) (ctx : AnalysisContext) (template : Template)
    (analysis : Segment) : Segment × Option String :=
  let templatePath := filepathJoin ctx.workingDirectory (filepathBase template.source)
  let res := ProjectLoad env templatePath
  let azdProject : Option Project := res.toOption
  let missing :=
    match res with
    | .error e => e.isNotExist
    | .ok _ => false
  let analysis := analysis.setInsight "missingAzureYamlAtRoot" (.bool missing)
  let analysis := analysis.setInsight "hasProjectHooks" (.bool (HasSegment analysis "hooks"))
  let analysis := analysis.setInsight "hasWorkflows"
    (.bool (match azdProject with
            | some p => !p.workflows.isEmpty
            | none => false))
  let analysis := analysis.setInsight "hasMetadata"
    (.bool (match azdProject with
            | some p => p.metadata.isSome
            | none => false))
  let analysis := analysis.setInsight "hasServices"
    (.bool (match azdProject with
            | some p => !p.services.isEmpty
            | none => false))
  let analysis :=
    match azdProject with
    | some p => analysis.setInsight "serviceCount" (.int p.services.length)
    | none => analysis
  let analysis := hostTypes.foldl
    (fun a ht => a.setInsight ("host-" ++ ht)
      (.bool (match azdProject with
              | some p => hasHostType p ht
              | none => false)))
    analysis
  let analysis := languagesList.foldl
    (fun a kv => a.setInsight ("lang-" ++ kv.1)
      (.bool (match azdProject with
              | some p => hasLanguage p kv.2
              | none => false)))
    analysis
  (analysis, none)

/-- AnalyzeTemplate (analyze.go): run analyzeHooks then analyzeProject
over a fresh root segment, appending any detector error string to the
root errors, and return the root with a nil error.  Result `none` embeds
a panic escaping a detector. -/
def AnalyzeTemplate (env : Env) (ctx : AnalysisContext) (template : Template) :
    Option (Segment × Option String) :=
  let root := NewSegment
  match analyzeHooks env ctx template root with
  | none => none
  | some (root1, e1) =>
    let root1 :=
      match e1 with
      | some msg => root1.addError msg
      | none => root1
    let step2 := analyzeProject env ctx template root1
    let root2 :=
      match step2.2 with
      | some msg => step2.1.addError msg
      | none => step2.1
    some (root2, none)

def ctx0 : AnalysisContext := { workingDirectory := "wd" }

def tmplA : Template :=
  { title := "t", description := "", website := "", author := "", source := "repo1",
    tags := [] }

def proj9 : Project :=
  { name := "t", hooks := [("predeploy", Hook.mk "az login" "" none none)],
    workflows := [], metadata := none, services := [], raw := "" }

def env9 : Env :=
  { statOk := fun p => p == "wd/repo1/azure.yaml",
    readFile := fun p => if p == "wd/repo1/azure.yaml" then .ok "Y9" else .error "open failed",
    parseYaml := fun s => if s == "Y9" then .ok proj9 else .error "bad" }

def env8 : Env :=
  { statOk := fun _ => false,
    readFile := fun _ => .error "nofile",
    parseYaml := fun _ => .error "bad" }

def proj3 : Project :=
  { name := "t", hooks := [("predeploy", Hook.mk "" "" none none)],
    workflows := [], metadata := none, services := [], raw := "" }

def env3 : Env :=
  { statOk := fun p => p == "wd/repo1/azure.yaml",
    readFile := fun p => if p == "wd/repo1/azure.yaml" then .ok "Y3" else .error "open failed",
    parseYaml := fun s => if s == "Y3" then .ok proj3 else .error "bad" }

def proj4 : Project :=
  { name := "t",
    hooks := [("predeploy", Hook.mk "" "" (some (Hook.mk "" "" none none))
                (some (Hook.mk "" "" none none))),
              ("postdeploy", Hook.mk "echo done" "" none none)],
    workflows := [], metadata := none, services := [], raw := "" }

def env4 : Env :=
  { statOk := fun p => p == "wd/repo1/azure.yaml",
    readFile := fun p => if p == "wd/repo1/azure.yaml" then .ok "Y4" else .error "open failed",
    parseYaml := fun s => if s == "Y4" then .ok proj4 else .error "bad" }

def proj5 : Project :=
  { name := "t", hooks := [("predeploy", Hook.mk "az login ./scripts/setup.sh" "" none none)],
    workflows := [], metadata := none, services := [], raw := "" }

def env5 : Env :=
  { statOk := fun p => p == "wd/repo1/azure.yaml",
    readFile := fun p =>
      if p == "wd/repo1/azure.yaml" then .ok "Y5"
      else if p == "wd/repo1/./scripts/setup.sh" then .ok "echo hi"
      else .error "open failed",
    parseYaml := fun s => if s == "Y5" then .ok proj5 else .error "bad" }

def rootOf (r : Option (Segment × Option String)) : Segment :=
  match r with
  | some p => p.1
  | none => NewSegment

theorem lookupA_isSome_iff {β : Type} (l : List (String × β)) (k : String) :
    (lookupA l k).isSome = true ↔ ∃ v, (k, v) ∈ l := by
  induction l with
  | nil => simp [lookupA]
  | cons hd tl ih =>
    obtain ⟨k1, v1⟩ := hd
    by_cases h : k1 = k
    · subst h
      have hsome : lookupA ((k1, v1) :: tl) k1 = some v1 := by
        simp [lookupA, List.find?]
      rw [hsome]
      constructor
      · intro _
        exact ⟨v1, List.mem_cons_self _ _⟩
      · intro _
        rfl
    · have hb : (k1 == k) = false := by simpa using h
      have hstep : lookupA ((k1, v1) :: tl) k = lookupA tl k := by
        simp [lookupA, List.find?, hb]
      rw [hstep, ih]
      constructor
      · rintro ⟨v, hv⟩
        exact ⟨v, List.mem_cons_of_mem _ hv⟩
      · rintro ⟨v, hv⟩
        rcases List.mem_cons.mp hv with heq | hmem
        · simp only [Prod.mk.injEq] at heq
          exact absurd heq.1.symm h
        · exact ⟨v, hmem⟩

mutual

theorem collectInsight_eq_subtree {α : Type} (ext : Value → Option α) (key : String) :
    ∀ s : Segment,
      collectInsight ext s key
        = (subtreeNodes s).filterMap (fun t => (lookupA t.insights key).bind ext)
  | .mk e d i segs => by
    rw [collectInsight, subtreeNodes, List.filterMap_cons,
      collectInsightList_eq_subtree ext key segs]
    simp only [Segment.insights]
    cases (lookupA i key).bind ext <;> simp

theorem collectInsightList_eq_subtree {α : Type} (ext : Value → Option α) (key : String) :
    ∀ l : List (String × Segment),
      collectInsightList ext l key
        = (subtreeNodesList l).filterMap (fun t => (lookupA t.insights key).bind ext)
  | [] => by rw [collectInsightList, subtreeNodesList, List.filterMap_nil]
  | (k, c) :: rest => by
    rw [collectInsightList, subtreeNodesList, List.filterMap_append,
      collectInsight_eq_subtree ext key c, collectInsightList_eq_subtree ext key rest]

end

/-- C1: the (spec-modelled) generic getInsight run on a Segment tree root
collects, in depth-first order, exactly the type-matching values of the
insight named `key` over the entire subtree rooted there — the root node
and all of its descendants, so an occurrence in any child branch (not
only the first-inspected one) appears in the result — and its found flag
is true iff at least one value matched. -/
theorem getInsightT_collects_whole_subtree {α : Type} (ext : Value → Option α)
    (root : Segment) (key : String) :
    (GetInsightT ext root key).1
      = (subtreeNodes root).filterMap (fun t => (lookupA t.insights key).bind ext)
    ∧ ((GetInsightT ext root key).2 = true ↔ (GetInsightT ext root key).1 ≠ [])
    ∧ (∀ a : α, a ∈ (GetInsightT ext root key).1 ↔
        ∃ t ∈ subtreeNodes root, ∃ v, lookupA t.insights key = some v ∧ ext v = some a) := by
  refine ⟨collectInsight_eq_subtree ext key root, ?_, ?_⟩
  · simp [GetInsightT, List.isEmpty_iff]
  · intro a
    rw [show (GetInsightT ext root key).1 = collectInsight ext root key from rfl,
      collectInsight_eq_subtree ext key root, List.mem_filterMap]
    constructor
    · rintro ⟨t, ht, hbind⟩
      rcases Option.bind_eq_some.mp hbind with ⟨v, hv, hext⟩
      exact ⟨t, ht, v, hv, hext⟩
    · rintro ⟨t, ht, v, hv, hext⟩
      exact ⟨t, ht, Option.bind_eq_some.mpr ⟨v, hv, hext⟩⟩

/-- C2 counterexample: in the tree root -> a -> b, the name b labels a
node reachable from the root by following segments twice (the spec
reading of hasSegment), but HasSegment root b is false — the src
HasSegment looks only at the direct children. -/
theorem hasSegment_not_recursive_cex :
    specHasSegment (Segment.mk [] [] [] [("a", Segment.mk [] [] [] [("b", NewSegment)])]) "b"
      = true
    ∧ HasSegment (Segment.mk [] [] [] [("a", Segment.mk [] [] [] [("b", NewSegment)])]) "b"
      = false := by
  decide

/-- C2 (amended): HasSegment root name is true iff name is the key of a
DIRECT child of root; the lookup does not recurse into descendants. -/
theorem hasSegment_iff_direct_child (root : Segment) (name : String) :
    HasSegment root name = true ↔ ∃ c, (name, c) ∈ root.segments := by
  rw [HasSegment]
  exact lookupA_isSome_iff root.segments name

/-- C10: the non-generic GetInsight of src signals absence by the empty
string: a segment whose own insights lack the key and that has no child
segments yields the empty string, and a segment genuinely storing the
empty string under the key yields the same value, so the two cases are
indistinguishable at this interface. -/
theorem getInsight_absent_is_empty_string (s t : Segment) (key : String)
    (h1 : lookupA s.insights key = none) (h2 : s.segments = [])
    (h3 : lookupA t.insights key = some (Value.str "")) :
    GetInsight s key = Value.str "" ∧ GetInsight t key = Value.str "" := by
  constructor
  · obtain ⟨e, d, i, segs⟩ := s
    simp only [Segment.insights, Segment.segments] at h1 h2
    subst h2
    rw [GetInsight, h1]
    rw [GetInsightFirst]
  · obtain ⟨e, d, i, segs⟩ := t
    simp only [Segment.insights] at h3
    rw [GetInsight, h3]

/-- Witness for C10 at concrete segments. -/
theorem getInsight_absent_witness :
    GetInsight NewSegment "k" = Value.str ""
    ∧ GetInsight (Segment.mk [] [] [("k", Value.str "")] []) "k" = Value.str "" :=
  getInsight_absent_is_empty_string NewSegment (Segment.mk [] [] [("k", Value.str "")] [])
    "k" (by decide) rfl (by decide)

/-- C3: evaluation at the failing input.  ProjectLoad succeeds on env3
(the manifest exists and parses), its hooks map holds one hook whose run
command is empty and whose posix override pointer is nil, and
AnalyzeTemplate does not return a tree at all — the dereference of the
nil posix override is a runtime panic (embedded as none), contradicting
the claim that the segment tree is always returned with a nil error. -/
theorem analyzeTemplate_panics_on_runless_hook :
    (ProjectLoad env3 "wd/repo1").toOption.isSome = true
    ∧ (AnalyzeTemplate env3 ctx0 tmplA).isNone = true := by
  decide

/-- C4: evaluation at the failing input.  In env4 the hooks map iterates
the run-less hook predeploy (posix and windows overrides present with
empty run fields) before the well-formed hook postdeploy.  The missing-run
error is recorded on the predeploy hook segment, but the loop then
returns from analyzeHooks: postdeploy gets no segment at all (it is
neither processed nor classified), and the group rollup insights are
skipped — contradicting the claim that only the failing hook is aborted
and every sibling still processes. -/
theorem analyzeHooks_abandons_siblings :
    ((lookupA (rootOf (AnalyzeTemplate env4 ctx0 tmplA)).segments "hooks").bind
      (fun h => lookupA h.segments "predeploy")).map Segment.errors
        = some ["predeploy hook missing run command"]
    ∧ ((lookupA (rootOf (AnalyzeTemplate env4 ctx0 tmplA)).segments "hooks").bind
      (fun h => lookupA h.segments "postdeploy")).isNone = true
    ∧ ((lookupA (rootOf (AnalyzeTemplate env4 ctx0 tmplA)).segments "hooks").map
      (fun h => h.insights.isEmpty)) = some true := by
  decide

/-- C5: evaluation at the failing input.  In env5 the predeploy hook has
the inline primary script az login ./scripts/setup.sh (which matches the
usesAzCli pattern) and one readable embedded script with content echo hi
(which does not); both texts are recorded under Data, yet the final
usesAzCli insight is false, because the heuristic loop overwrites the
insight with the match result of each scanned script in turn and the
embedded script iterates last — contradicting the claim that the insight
is true iff any scanned script matches. -/
theorem heuristic_records_last_script_only :
    matchStringP azWsAt "az login ./scripts/setup.sh" = true
    ∧ ((lookupA (rootOf (AnalyzeTemplate env5 ctx0 tmplA)).segments "hooks").bind
        (fun h => lookupA h.segments "predeploy")).bind
        (fun s => lookupA s.data "script") = some "az login ./scripts/setup.sh"
    ∧ ((lookupA (rootOf (AnalyzeTemplate env5 ctx0 tmplA)).segments "hooks").bind
        (fun h => lookupA h.segments "predeploy")).bind
        (fun s => lookupA s.data "./scripts/setup.sh") = some "echo hi"
    ∧ ((lookupA (rootOf (AnalyzeTemplate env5 ctx0 tmplA)).segments "hooks").bind
        (fun h => lookupA h.segments "predeploy")).bind
        (fun s => lookupA s.insights "usesAzCli") = some (Value.bool false) := by
  decide

theorem mem_collectInsight_iff {α : Type} (ext : Value → Option α) (s : Segment)
    (key : String) (a : α) :
    a ∈ collectInsight ext s key ↔
      ∃ t ∈ subtreeNodes s, ∃ v, lookupA t.insights key = some v ∧ ext v = some a := by
  rw [collectInsight_eq_subtree ext key s, List.mem_filterMap]
  constructor
  · rintro ⟨t, ht, hbind⟩
    rcases Option.bind_eq_some.mp hbind with ⟨v, hv, hext⟩
    exact ⟨t, ht, v, hv, hext⟩
  · rintro ⟨t, ht, v, hv, hext⟩
    exact ⟨t, ht, Option.bind_eq_some.mpr ⟨v, hv, hext⟩⟩

theorem mem_collectBool_iff (s : Segment) (key : String) (b : Bool) :
    b ∈ collectInsight Value.asBool s key ↔
      ∃ t ∈ subtreeNodes s, lookupA t.insights key = some (Value.bool b) := by
  rw [mem_collectInsight_iff]
  constructor
  · rintro ⟨t, ht, v, hv, hext⟩
    cases v with
    | bool b1 =>
      simp only [Value.asBool, Option.some.injEq] at hext
      subst hext
      exact ⟨t, ht, hv⟩
    | int n => simp [Value.asBool] at hext
    | str s1 => simp [Value.asBool] at hext
  · rintro ⟨t, ht, hv⟩
    exact ⟨t, ht, Value.bool b, hv, rfl⟩

/-- C6 counterexample: on a segment under which the key occurs nowhere,
the Boolean resolver returns the string false (the output of fmt.Sprint),
which is not the boolean value false the claim promises. -/
theorem boolResolver_empty_returns_string_cex :
    boolInsightResolverValue NewSegment "k" = Value.str "false"
    ∧ Value.str "false" ≠ Value.bool false := by
  decide

/-- C6 (amended): the Boolean resolver equals the logical OR of the
occurrences collected over the subtree — it returns the boolean true iff
some node of the subtree stores the boolean true under the key, and the
boolean OR of the collected list whenever at least one bool-typed
occurrence exists — but on an empty collection it returns the STRING
false (fmt.Sprint of false), not the boolean false. -/
theorem boolResolver_or_over_subtree (s : Segment) (key : String) :
    (boolInsightResolverValue s key = Value.bool true ↔
      ∃ t ∈ subtreeNodes s, lookupA t.insights key = some (Value.bool true))
    ∧ (collectInsight Value.asBool s key ≠ [] →
        boolInsightResolverValue s key
          = Value.bool ((collectInsight Value.asBool s key).contains true))
    ∧ (collectInsight Value.asBool s key = [] →
        boolInsightResolverValue s key = Value.str "false") := by
  have hdef : boolInsightResolverValue s key
      = if (collectInsight Value.asBool s key).isEmpty then Value.str "false"
        else Value.bool ((collectInsight Value.asBool s key).contains true) := by
    simp only [boolInsightResolverValue, GetInsightT]
    cases h : (collectInsight Value.asBool s key).isEmpty <;> simp [h]
  refine ⟨?_, ?_, ?_⟩
  · rw [hdef]
    by_cases h : (collectInsight Value.asBool s key).isEmpty = true
    · rw [if_pos h]
      simp only [List.isEmpty_iff] at h
      constructor
      · intro hfalse
        exact absurd hfalse (by simp)
      · rintro ⟨t, ht, hv⟩
        have : true ∈ collectInsight Value.asBool s key :=
          (mem_collectBool_iff s key true).mpr ⟨t, ht, hv⟩
        simp [h] at this
    · rw [if_neg h]
      rw [show (Value.bool ((collectInsight Value.asBool s key).contains true)
          = Value.bool true) ↔ ((collectInsight Value.asBool s key).contains true = true)
        from by simp]
      rw [show ((collectInsight Value.asBool s key).contains true = true)
          ↔ true ∈ collectInsight Value.asBool s key from by simp]
      exact mem_collectBool_iff s key true
  · intro hne
    rw [hdef, if_neg (by simpa [List.isEmpty_iff] using hne)]
  · intro he
    rw [hdef, if_pos (by simp [he])]

/-- Witness for C6 at a concrete tree: the key stored as boolean true in
a child branch makes the resolver return the boolean true. -/
theorem boolResolver_or_witness :
    boolInsightResolverValue
      (Segment.mk [] [] [] [("c", Segment.mk [] [] [("k", Value.bool true)] [])]) "k"
      = Value.bool true :=
  (boolResolver_or_over_subtree
    (Segment.mk [] [] [] [("c", Segment.mk [] [] [("k", Value.bool true)] [])]) "k").1.mpr
    (by decide)

/-- C7 counterexample: on a segment under which the key occurs nowhere,
the Number resolver returns the string 0 (the output of fmt.Sprint),
which is not the number 0 the claim promises. -/
theorem numberResolver_empty_returns_string_cex :
    numberInsightResolverValue NewSegment "k" = Value.str "0"
    ∧ Value.str "0" ≠ Value.int 0 := by
  decide

/-- C7 (amended): whenever at least one int-typed occurrence of the key
exists under the node, the Number resolver returns the arithmetic sum of
every occurrence collected depth-first over the subtree; on an empty
collection it returns the STRING 0 (fmt.Sprint of 0), not the number 0. -/
theorem numberResolver_sum_over_subtree (s : Segment) (key : String) :
    (collectInsight Value.asInt s key ≠ [] →
      numberInsightResolverValue s key
        = Value.int (((subtreeNodes s).filterMap
            (fun t => (lookupA t.insights key).bind Value.asInt)).sum))
    ∧ (collectInsight Value.asInt s key = [] →
        numberInsightResolverValue s key = Value.str "0") := by
  have hdef : numberInsightResolverValue s key
      = if (collectInsight Value.asInt s key).isEmpty then Value.str "0"
        else Value.int ((collectInsight Value.asInt s key).foldl (fun acc v => acc + v) 0) := by
    simp only [numberInsightResolverValue, GetInsightT]
    cases h : (collectInsight Value.asInt s key).isEmpty <;> simp [h]
  constructor
  · intro hne
    rw [hdef, if_neg (by simpa [List.isEmpty_iff] using hne)]
    rw [collectInsight_eq_subtree Value.asInt key s]
    rw [show ∀ l : List Int, l.foldl (fun acc v => acc + v) 0 = l.sum
      from fun l => by simp [List.sum_eq_foldl]]
  · intro he
    rw [hdef, if_pos (by simp [he])]

/-- Witness for C7 at a concrete tree: occurrences 2 at the root and 3 in
a child sum to 5. -/
theorem numberResolver_sum_witness :
    numberInsightResolverValue
      (Segment.mk [] [] [("k", Value.int 2)]
        [("c", Segment.mk [] [] [("k", Value.int 3)] [])]) "k"
      = Value.int 5 :=
  ((numberResolver_sum_over_subtree
    (Segment.mk [] [] [("k", Value.int 2)]
      [("c", Segment.mk [] [] [("k", Value.int 3)] [])]) "k").1 (by decide)).trans
    (by decide)

/-- C8 counterexample: with no manifest at the template root (env8), the
manifest-dependent insight hasWorkflows is PRESENT on the root with the
boolean value false — not absent as the claim requires. -/
theorem missingManifest_insight_present_cex :
    lookupA (rootOf (AnalyzeTemplate env8 ctx0 tmplA)).insights "hasWorkflows"
      = some (Value.bool false) := by
  decide

/-- C8 (amended): with no manifest at the template root, analysis returns
a root segment whose errors contain the not-found message, with no child
segment at all (in particular none named project), with the numeric
serviceCount insight absent, with missingAzureYamlAtRoot true — but with
the boolean manifest-dependent insights (hasWorkflows, hasMetadata,
hasServices, hasProjectHooks, the host- and lang- families) present with
the value false rather than absent. -/
theorem missingManifest_scenario :
    (AnalyzeTemplate env8 ctx0 tmplA).isSome = true
    ∧ ((rootOf (AnalyzeTemplate env8 ctx0 tmplA)).errors.any
        (fun e => strContains e "not found")) = true
    ∧ (rootOf (AnalyzeTemplate env8 ctx0 tmplA)).segments = []
    ∧ lookupA (rootOf (AnalyzeTemplate env8 ctx0 tmplA)).insights "missingAzureYamlAtRoot"
        = some (Value.bool true)
    ∧ lookupA (rootOf (AnalyzeTemplate env8 ctx0 tmplA)).insights "serviceCount" = none
    ∧ lookupA (rootOf (AnalyzeTemplate env8 ctx0 tmplA)).insights "hasServices"
        = some (Value.bool false)
    ∧ lookupA (rootOf (AnalyzeTemplate env8 ctx0 tmplA)).insights "hasMetadata"
        = some (Value.bool false)
    ∧ lookupA (rootOf (AnalyzeTemplate env8 ctx0 tmplA)).insights "hasProjectHooks"
        = some (Value.bool false)
    ∧ lookupA (rootOf (AnalyzeTemplate env8 ctx0 tmplA)).insights "host-appservice"
        = some (Value.bool false)
    ∧ lookupA (rootOf (AnalyzeTemplate env8 ctx0 tmplA)).insights "lang-python"
        = some (Value.bool false) := by
  refine ⟨by decide, by decide, ?_, by decide, by decide, by decide, by decide, by decide,
    by decide, by decide⟩
  rfl

/-- C9 counterexample: in the single predeploy scenario (env9) the hooks
group segment exists but has no child named project, so no segment is
reachable at the path hooks.project.predeploy — project-level hooks sit
directly under the hooks group. -/
theorem hooks_project_path_cex :
    (lookupA (rootOf (AnalyzeTemplate env9 ctx0 tmplA)).segments "hooks").isSome = true
    ∧ ((lookupA (rootOf (AnalyzeTemplate env9 ctx0 tmplA)).segments "hooks").bind
        (fun h => lookupA h.segments "project")).isNone = true := by
  decide

/-- C9 (amended): a template declaring exactly one project-level hook
predeploy with inline run text az login yields a hook segment at the path
hooks.predeploy (directly under the hooks group, with no project
intermediate) carrying usesAzCli=true, usesAzCliLogin=true, usesAzd=false,
usesInlineScript=true, and the group rollup type-predeploy=true on the
hooks segment. -/
theorem predeploy_inline_scenario :
    ((lookupA (rootOf (AnalyzeTemplate env9 ctx0 tmplA)).segments "hooks").bind
      (fun h => lookupA h.segments "predeploy")).bind
      (fun s => lookupA s.insights "usesAzCli") = some (Value.bool true)
    ∧ ((lookupA (rootOf (AnalyzeTemplate env9 ctx0 tmplA)).segments "hooks").bind
      (fun h => lookupA h.segments "predeploy")).bind
      (fun s => lookupA s.insights "usesAzCliLogin") = some (Value.bool true)
    ∧ ((lookupA (rootOf (AnalyzeTemplate env9 ctx0 tmplA)).segments "hooks").bind
      (fun h => lookupA h.segments "predeploy")).bind
      (fun s => lookupA s.insights "usesAzd") = some (Value.bool false)
    ∧ ((lookupA (rootOf (AnalyzeTemplate env9 ctx0 tmplA)).segments "hooks").bind
      (fun h => lookupA h.segments "predeploy")).bind
      (fun s => lookupA s.insights "usesInlineScript") = some (Value.bool true)
    ∧ (lookupA (rootOf (AnalyzeTemplate env9 ctx0 tmplA)).segments "hooks").bind
      (fun h => lookupA h.insights "type-predeploy") = some (Value.bool true) := by
  decide

/-- A small two-branch tree used to instantiate the C1 theorem. -/
def segTwoBranches : Segment :=
  Segment.mk [] [] [("k", Value.bool true)]
    [("a", Segment.mk [] [] [("k", Value.bool false)] []),
     ("b", Segment.mk [] [] [("k", Value.str "x")] [])]

/-- Witness for C1: on the two-branch tree the collected list holds the
root occurrence and the occurrence of the second branch (the str-typed
one is filtered out), in depth-first order. -/
theorem getInsightT_collects_witness :
    (GetInsightT Value.asBool segTwoBranches "k").1 = [true, false] := by
  rw [(getInsightT_collects_whole_subtree Value.asBool segTwoBranches "k").1]
  decide

/-- Witness for C2 (amended) at a concrete one-child segment. -/
theorem hasSegment_direct_witness :
    HasSegment (Segment.mk [] [] [] [("a", NewSegment)]) "a" = true :=
  (hasSegment_iff_direct_child (Segment.mk [] [] [] [("a", NewSegment)]) "a").mpr
    ⟨NewSegment, List.mem_cons_self _ _⟩
